import Mathlib

/-!
# Verification of the goderive printer (src/derive/printer.go)

A shallow embedding of the output-assembly layer of the goderive code
generator: the content accumulator (`P`, `In`, `Out`, `HasContent`),
the import registry (`NewImport` and the deferred-handle resolution it
returns), and the serializer (`WriteTo`).

Go strings are modelled as Lean `String`s; where the Go code indexes
bytes we work on the character list `String.data`.  Every byte index the
code produces falls on the boundary of the ASCII pattern or separator
involved, and UTF-8 byte order coincides with code-point order, so the
character-level model agrees with the byte-level code.  The Go map
`map[string]string` is modelled as an association list with the map's
insertion/update semantics (`insertStr`); the unspecified iteration order
of a Go map is modelled as the insertion order.  A Go `panic` is
modelled as `Except.error`.
-/

namespace GoDerive

/-- printer.go:49-54.  `badToUnderscore` keeps letters, digits and
underscore, replacing every other rune by an underscore.  (Go's
`unicode.IsLetter`/`IsDigit` classes are modelled by the corresponding
`Char` predicates; no result below depends on the exact character
class.) -/
def badToUnderscore (r : Char) : Char :=
  if r.isAlpha || r.isDigit || r = '_' then r else '_'

/-- Does the pattern `pat` occur in `s` starting at position `i`?
(Character-level model of substring occurrence.) -/
def matchesAt (s pat : List Char) (i : Nat) : Bool :=
  (s.drop i).take pat.length == pat

/-- Largest index `j ≤ n` with `matchesAt s pat j`, if any.  Searching
downward from `n` gives `strings.LastIndex` semantics directly. -/
def lastIndexFrom (s pat : List Char) : Nat → Option Nat
  | 0 => if matchesAt s pat 0 then some 0 else none
  | n + 1 => if matchesAt s pat (n + 1) then some (n + 1) else lastIndexFrom s pat n

/-- `strings.LastIndex s pat`: index of the last occurrence of `pat` in
`s` (`none` for Go's `-1`). -/
def lastIndex (s pat : List Char) : Option Nat :=
  lastIndexFrom s pat s.length

/-- printer.go:60-68.  `unvendor` drops everything up to and including
the last occurrence of the marker `"/vendor/"` (8 characters). -/
def unvendor (path : String) : String :=
  match lastIndex path.data "/vendor/".data with
  | some i => String.mk (path.data.drop (i + 8))
  | none => path

/-- printer.go:70-72.  `makeFullpath` sanitizes the whole path with
`badToUnderscore` (`strings.Map` with a rune-to-rune function is a plain
character map). -/
def makeFullpath (path : String) : String :=
  String.mk (path.data.map badToUnderscore)

/-- printer.go:74-79.  `makeAlias` takes the last `"_"`-separated
component of the sanitized path (`strings.Split` never returns an empty
slice, so the default of `getLastD` is never used). -/
def makeAlias (path : String) : String :=
  ((String.mk (path.data.map badToUnderscore)).splitOn "_").getLastD ""

/-- Go map assignment `m[k] = v` on an association list: replace the
binding of `k` if present, otherwise append a new binding. -/
def insertStr (m : List (String × String)) (k v : String) : List (String × String) :=
  match m with
  | [] => [(k, v)]
  | (k', v') :: rest => if k' = k then (k, v) :: rest else (k', v') :: insertStr rest k v

/-- printer.go:37-43.  The printer state: package name, content buffer
`w`, current indentation string, import registry (alias ↦ path) and the
has-content flag. -/
structure PrinterState where
  pkgName : String
  w : String
  indent : String
  imports : List (String × String)
  hasContent : Bool
deriving DecidableEq

/-- printer.go:45-47.  `newPrinter` starts with empty buffer, empty
indentation and an empty registry. -/
def newPrinter (pkgName : String) : PrinterState :=
  ⟨pkgName, "", "", [], false⟩

/-- printer.go:81-102.  The body of the deferred-import closure returned
by `NewImport(name, path)`: invoking the handle in printer state `p`.
It normalizes the path, then (a) registers `name ↦ path` if `name` is
free, (b) reuses `name` if it is already bound to the same path, and
(c) otherwise falls back to the sanitized full path, panicking
(`Except.error`) when that key is bound to a different path.  (The Go
code panics when `path2 != path` and otherwise stores and returns the
full path; the `if` is stated here with the condition inverted.) -/
def NewImport (p : PrinterState) (name rawPath : String) :
    Except String (PrinterState × String) :=
  let path := unvendor rawPath
  let fullpath := makeFullpath path
  match p.imports.lookup name with
  | none => Except.ok ({ p with imports := insertStr p.imports name path }, name)
  | some existing =>
    if existing = path then Except.ok (p, name)
    else
      match p.imports.lookup fullpath with
      | some path2 =>
        if path2 = path then
          Except.ok ({ p with imports := insertStr p.imports fullpath path }, fullpath)
        else
          Except.error ("non unique fullpath: " ++ path2 ++ " != " ++ path)
      | none => Except.ok ({ p with imports := insertStr p.imports fullpath path }, fullpath)

/-- A sequence of deferred-handle invocations `(name, path)`, threading
the printer state; `Except.error` (a Go panic) aborts the run. -/
def runResolves (s : PrinterState) : List (String × String) → Except String PrinterState
  | [] => Except.ok s
  | (name, path) :: rest =>
    match NewImport s name path with
    | Except.error e => Except.error e
    | Except.ok (s', _) => runResolves s' rest

/-- printer.go:104-107.  `P` appends the indented, formatted line and a
newline to the buffer and marks the printer as having content.  The
`fmt.Fprintf` formatting itself is outside this model: `line` is the
already-formatted text. -/
def P (p : PrinterState) (line : String) : PrinterState :=
  { p with hasContent := true, w := p.w ++ p.indent ++ line ++ "\n" }

/-- printer.go:109-111.  `In` appends one tab to the indentation. -/
def In (p : PrinterState) : PrinterState :=
  { p with indent := p.indent ++ "\t" }

/-- printer.go:113-119.  `Out` removes the first character of the
indentation (`indent[1:]`), panicking when the indentation is empty. -/
def Out (p : PrinterState) : Except String PrinterState :=
  if 0 < p.indent.length then
    Except.ok { p with indent := String.mk (p.indent.data.drop 1) }
  else
    Except.error "bug in code generator: unindenting more than has been indented"

/-- printer.go:121-123. -/
def HasContent (p : PrinterState) : Bool :=
  p.hasContent

/-- Lexicographic comparison of character lists; on UTF-8 encoded
strings this coincides with the byte-wise order used by
`sort.Strings`. -/
def leChars : List Char → List Char → Bool
  | [], _ => true
  | _ :: _, [] => false
  | a :: as, b :: bs => if a < b then true else if b < a then false else leChars as bs

/-- The string order of `sort.Strings`, as a proposition. -/
def strLeP (a b : String) : Prop :=
  leChars a.data b.data = true

instance : DecidableRel strLeP := fun a b => instDecidableEqBool (leChars a.data b.data) true

/-- printer.go:140, `sort.Strings(paths)`: sort ascending in the
byte-wise lexicographic order. -/
def sortStrings (l : List String) : List String :=
  List.insertionSort strLeP l

/-- printer.go:134-139.  The loop over the registry builds the inverse
map `pathToQual` by Go map assignment; the unspecified map iteration
order is modelled as insertion order. -/
def pathToQualOf (imports : List (String × String)) : List (String × String) :=
  imports.foldl (fun m kp => insertStr m kp.2 kp.1) []

/-- printer.go:134-139.  The `paths` slice collected by the same loop. -/
def pathsOf (imports : List (String × String)) : List String :=
  imports.map Prod.snd

/-- printer.go:141-148.  One line of the import block: unqualified when
the qualifier equals the path, `qual "path"` otherwise.  (In the Go code
`pathToQual[path]` is always present; `getD ""` supplies the map's zero
value.) -/
def importLine (pathToQual : List (String × String)) (path : String) : String :=
  let qual := (pathToQual.lookup path).getD ""
  if qual = path then "\t\"" ++ path ++ "\"\n"
  else "\t" ++ qual ++ " \"" ++ path ++ "\"\n"

/-- printer.go:131-150.  The import block emitted by `WriteTo` when the
registry is non-empty: blank line, `import (`, one line per collected
path in sorted order, `)`. -/
def importBlock (imports : List (String × String)) : String :=
  if 0 < imports.length then
    "\n" ++ "import (\n" ++
      String.join ((sortStrings (pathsOf imports)).map (importLine (pathToQualOf imports))) ++
      ")\n"
  else ""

/-- printer.go:126-150.  The contents of the local `top` buffer:
provenance header, blank line, package clause, and the import block. -/
def topString (p : PrinterState) : String :=
  "// Code generated by goderive DO NOT EDIT.\n" ++ "\n" ++
    ("package " ++ p.pkgName ++ "\n") ++ importBlock p.imports

/-- The destination sink (`io.Writer`): the characters accepted so far
and the number of further characters it accepts before failing.  A
write within budget succeeds completely; a write beyond it is truncated
at the budget and reports an error, which is how an `io.Writer` induces
the short-write error path of `bytes.Buffer.WriteTo`. -/
structure Sink where
  received : List Char
  budget : Nat
deriving DecidableEq

/-- One `Write` call on the sink: accepted sink state, count written,
and the error flag. -/
def sinkWrite (s : Sink) (data : String) : Sink × Nat × Bool :=
  if data.length ≤ s.budget then
    (⟨s.received ++ data.data, s.budget - data.length⟩, data.length, false)
  else
    (⟨s.received ++ data.data.take s.budget, 0⟩, s.budget, true)

/-- printer.go:125-157.  `WriteTo` writes the `top` buffer, returns
early with the partial count on error, otherwise writes (and thereby
drains, `bytes.Buffer.WriteTo`) the content buffer and returns the sum
of both counts with the second write's error.  Result:
`(printer, sink, bytes written, error flag)`. -/
def WriteTo (p : PrinterState) (file : Sink) : PrinterState × Sink × Nat × Bool :=
  let r1 := sinkWrite file (topString p)
  if r1.2.2 then (p, r1.1, r1.2.1, true)
  else
    let r2 := sinkWrite r1.1 p.w
    ({ p with w := String.mk (p.w.data.drop r2.2.1) }, r2.1, r1.2.1 + r2.2.1, r2.2.2)

/-- Running two deferred handles on a fresh printer and collecting the
two resolved identifiers (`none` if either one panics). -/
def resolve2 (name1 path1 name2 path2 : String) : Option (String × String) :=
  match NewImport (newPrinter "derived") name1 path1 with
  | Except.error _ => none
  | Except.ok (s1, r1) =>
    match NewImport s1 name2 path2 with
    | Except.error _ => none
    | Except.ok (_, r2) => some (r1, r2)

/-- Is the outcome a panic? -/
def isErr {α : Type} (e : Except String α) : Bool :=
  match e with
  | Except.error _ => true
  | Except.ok _ => false

/-- The import block as the specification words it (spec §4.3 step 3),
for comparison with `importBlock`: list the canonical paths in ascending
lexicographic order, one per line, and emit a path unqualified exactly
when its registered key equals the path, otherwise in `key "path"` form.
The key of a path is the one of its (unique) registration. -/
def specImportBlock (imports : List (String × String)) : String :=
  "\n" ++ "import (\n" ++
    String.join ((sortStrings (imports.map Prod.snd)).map (fun path =>
      let k := ((imports.find? (fun kp => kp.2 == path)).map Prod.fst).getD ""
      if k = path then "\t\"" ++ path ++ "\"\n"
      else "\t" ++ k ++ " \"" ++ path ++ "\"\n")) ++ ")\n"

/-! ## Lemmas about the association-list model of Go maps -/

theorem lookup_insertStr_self (m : List (String × String)) (k v : String) :
    (insertStr m k v).lookup k = some v := by
  induction m with
  | nil => simp [insertStr, List.lookup]
  | cons hd tl ih =>
    obtain ⟨k', v'⟩ := hd
    by_cases h : k' = k
    · simp [insertStr, h, List.lookup]
    · simp only [insertStr, if_neg h, List.lookup]
      have : (k == k') = false := by
        simp [Ne.symm h]
      simp [this, ih]

theorem lookup_insertStr_ne (m : List (String × String)) (k v k' : String) (h : k' ≠ k) :
    (insertStr m k v).lookup k' = m.lookup k' := by
  induction m with
  | nil =>
    have : (k' == k) = false := by simp [h]
    simp [insertStr, List.lookup, this]
  | cons hd tl ih =>
    obtain ⟨k0, v0⟩ := hd
    by_cases h0 : k0 = k
    · subst h0
      simp only [insertStr, if_pos rfl, List.lookup]
      have : (k' == k0) = false := by simp [h]
      simp [this]
    · simp only [insertStr, if_neg h0, List.lookup]
      by_cases h1 : k' = k0
      · simp [h1]
      · have : (k' == k0) = false := by simp [h1]
        simp [this, ih]

theorem mem_keys_insertStr (m : List (String × String)) (k v a : String) :
    a ∈ (insertStr m k v).map Prod.fst ↔ a ∈ m.map Prod.fst ∨ a = k := by
  induction m with
  | nil => simp [insertStr]
  | cons hd tl ih =>
    obtain ⟨k0, v0⟩ := hd
    by_cases h0 : k0 = k
    · subst h0
      simp only [insertStr, if_pos rfl, List.map, List.mem_cons]
      constructor
      · rintro (h | h)
        · exact Or.inr h
        · exact Or.inl (Or.inr h)
      · rintro (h | h)
        · rcases h with h | h
          · exact Or.inl h
          · exact Or.inr h
        · exact Or.inl h
    · simp only [insertStr, if_neg h0, List.map, List.mem_cons, ih]
      tauto

theorem nodup_keys_insertStr (m : List (String × String)) (k v : String)
    (h : (m.map Prod.fst).Nodup) : ((insertStr m k v).map Prod.fst).Nodup := by
  induction m with
  | nil => simp [insertStr]
  | cons hd tl ih =>
    obtain ⟨k0, v0⟩ := hd
    simp only [List.map, List.nodup_cons] at h
    by_cases h0 : k0 = k
    · subst h0
      simp only [insertStr, if_pos rfl, List.map, List.nodup_cons]
      exact h
    · simp only [insertStr, if_neg h0, List.map, List.nodup_cons]
      refine ⟨?_, ih h.2⟩
      rw [mem_keys_insertStr]
      rintro (hmem | hk)
      · exact h.1 hmem
      · exact h0 hk

theorem lookup_eq_none_iff (m : List (String × String)) (k : String) :
    m.lookup k = none ↔ k ∉ m.map Prod.fst := by
  induction m with
  | nil => simp [List.lookup]
  | cons hd tl ih =>
    obtain ⟨k0, v0⟩ := hd
    by_cases h0 : k = k0
    · subst h0
      simp [List.lookup]
    · have : (k == k0) = false := by simp [h0]
      simp [List.lookup, this, ih, h0]

theorem insertStr_of_lookup_none (m : List (String × String)) (k v : String)
    (h : m.lookup k = none) : insertStr m k v = m ++ [(k, v)] := by
  induction m with
  | nil => simp [insertStr]
  | cons hd tl ih =>
    obtain ⟨k0, v0⟩ := hd
    by_cases h0 : k = k0
    · subst h0
      simp [List.lookup] at h
    · have hb : (k == k0) = false := by simp [h0]
      have h0' : ¬k0 = k := fun hk => h0 hk.symm
      simp only [List.lookup, hb] at h
      simp only [insertStr, if_neg h0', List.cons_append]
      rw [ih h]

/-! ## Lemmas about the import registry -/

/-- Exhaustive case analysis of one deferred-handle invocation, following
the four paths through printer.go:82-101. -/
theorem NewImport_spec (s : PrinterState) (name rawPath : String) :
    (s.imports.lookup name = none ∧
      NewImport s name rawPath =
        Except.ok ({ s with imports := insertStr s.imports name (unvendor rawPath) }, name)) ∨
    (s.imports.lookup name = some (unvendor rawPath) ∧
      NewImport s name rawPath = Except.ok (s, name)) ∨
    (∃ e, s.imports.lookup name = some e ∧ e ≠ unvendor rawPath ∧
      (s.imports.lookup (makeFullpath (unvendor rawPath)) = none ∨
        s.imports.lookup (makeFullpath (unvendor rawPath)) = some (unvendor rawPath)) ∧
      NewImport s name rawPath =
        Except.ok ({ s with
            imports := insertStr s.imports (makeFullpath (unvendor rawPath)) (unvendor rawPath) },
          makeFullpath (unvendor rawPath))) ∨
    (∃ e q, s.imports.lookup name = some e ∧ e ≠ unvendor rawPath ∧
      s.imports.lookup (makeFullpath (unvendor rawPath)) = some q ∧ q ≠ unvendor rawPath ∧
      NewImport s name rawPath =
        Except.error ("non unique fullpath: " ++ q ++ " != " ++ unvendor rawPath)) := by
  cases hn : s.imports.lookup name with
  | none =>
    refine Or.inl ⟨rfl, ?_⟩
    simp [NewImport, hn]
  | some e =>
    by_cases he : e = unvendor rawPath
    · subst he
      refine Or.inr (Or.inl ⟨rfl, ?_⟩)
      simp [NewImport, hn]
    · cases hf : s.imports.lookup (makeFullpath (unvendor rawPath)) with
      | none =>
        refine Or.inr (Or.inr (Or.inl ⟨e, rfl, he, Or.inl rfl, ?_⟩))
        simp [NewImport, hn, he, hf]
      | some q =>
        by_cases hq : q = unvendor rawPath
        · subst hq
          refine Or.inr (Or.inr (Or.inl ⟨e, rfl, he, Or.inr rfl, ?_⟩))
          simp [NewImport, hn, he, hf]
        · refine Or.inr (Or.inr (Or.inr ⟨e, q, rfl, he, rfl, hq, ?_⟩))
          simp [NewImport, hn, he, hf, hq]

/-- A successful invocation never removes or changes a registry binding:
every key that was bound stays bound to the same path. -/
theorem NewImport_preserves {s s' : PrinterState} {name rawPath r : String}
    (h : NewImport s name rawPath = Except.ok (s', r)) :
    ∀ k v, s.imports.lookup k = some v → s'.imports.lookup k = some v := by
  intro k v hkv
  rcases NewImport_spec s name rawPath with ⟨hn, heq⟩ | ⟨hn, heq⟩ |
    ⟨e, hn, he, hfree, heq⟩ | ⟨e, q, hn, he, hf, hq, heq⟩
  · rw [heq] at h
    simp only [Except.ok.injEq, Prod.mk.injEq] at h
    obtain ⟨hs, _⟩ := h
    subst hs
    dsimp only
    by_cases hk : k = name
    · subst hk
      rw [hn] at hkv
      exact Option.noConfusion hkv
    · rw [lookup_insertStr_ne _ _ _ _ hk]
      exact hkv
  · rw [heq] at h
    simp only [Except.ok.injEq, Prod.mk.injEq] at h
    obtain ⟨hs, _⟩ := h
    subst hs
    exact hkv
  · rw [heq] at h
    simp only [Except.ok.injEq, Prod.mk.injEq] at h
    obtain ⟨hs, _⟩ := h
    subst hs
    dsimp only
    by_cases hk : k = makeFullpath (unvendor rawPath)
    · subst hk
      rcases hfree with hfree | hfree
      · rw [hfree] at hkv
        exact Option.noConfusion hkv
      · rw [hfree] at hkv
        rw [lookup_insertStr_self]
        exact hkv
    · rw [lookup_insertStr_ne _ _ _ _ hk]
      exact hkv
  · rw [heq] at h
    exact Except.noConfusion h

/-- After a successful invocation the returned identifier is bound to
the normalized path. -/
theorem NewImport_ok_lookup {s s' : PrinterState} {name rawPath r : String}
    (h : NewImport s name rawPath = Except.ok (s', r)) :
    s'.imports.lookup r = some (unvendor rawPath) := by
  rcases NewImport_spec s name rawPath with ⟨hn, heq⟩ | ⟨hn, heq⟩ |
    ⟨e, hn, he, hfree, heq⟩ | ⟨e, q, hn, he, hf, hq, heq⟩
  · rw [heq] at h
    simp only [Except.ok.injEq, Prod.mk.injEq] at h
    obtain ⟨hs, hr⟩ := h
    subst hs; subst hr
    dsimp only
    exact lookup_insertStr_self _ _ _
  · rw [heq] at h
    simp only [Except.ok.injEq, Prod.mk.injEq] at h
    obtain ⟨hs, hr⟩ := h
    subst hs; subst hr
    exact hn
  · rw [heq] at h
    simp only [Except.ok.injEq, Prod.mk.injEq] at h
    obtain ⟨hs, hr⟩ := h
    subst hs; subst hr
    dsimp only
    exact lookup_insertStr_self _ _ _
  · rw [heq] at h
    exact Except.noConfusion h

/-- Facts available after a successful invocation, separated by which
identifier was returned (the preferred name or the full-path
fallback). -/
theorem NewImport_ok_state {s s' : PrinterState} {name rawPath r : String}
    (h : NewImport s name rawPath = Except.ok (s', r)) :
    (r = name ∧ s'.imports.lookup name = some (unvendor rawPath)) ∨
    (r = makeFullpath (unvendor rawPath) ∧
      s'.imports.lookup r = some (unvendor rawPath) ∧
      ∃ e, e ≠ unvendor rawPath ∧ s.imports.lookup name = some e ∧
        s'.imports.lookup name = some e) := by
  rcases NewImport_spec s name rawPath with ⟨hn, heq⟩ | ⟨hn, heq⟩ |
    ⟨e, hn, he, hfree, heq⟩ | ⟨e, q, hn, he, hf, hq, heq⟩
  · rw [heq] at h
    simp only [Except.ok.injEq, Prod.mk.injEq] at h
    obtain ⟨hs, hr⟩ := h
    subst hs; subst hr
    exact Or.inl ⟨rfl, by dsimp only; exact lookup_insertStr_self _ _ _⟩
  · rw [heq] at h
    simp only [Except.ok.injEq, Prod.mk.injEq] at h
    obtain ⟨hs, hr⟩ := h
    subst hs; subst hr
    exact Or.inl ⟨rfl, hn⟩
  · rw [heq] at h
    simp only [Except.ok.injEq, Prod.mk.injEq] at h
    obtain ⟨hs, hr⟩ := h
    subst hs; subst hr
    have hne : name ≠ makeFullpath (unvendor rawPath) := by
      intro hcontra
      rw [hcontra] at hn
      rcases hfree with hfree | hfree
      · rw [hn] at hfree
        exact Option.noConfusion hfree
      · rw [hn] at hfree
        simp only [Option.some.injEq] at hfree
        exact he hfree
    refine Or.inr ⟨rfl, by dsimp only; exact lookup_insertStr_self _ _ _, e, he, hn, ?_⟩
    dsimp only
    rw [lookup_insertStr_ne _ _ _ _ hne]
    exact hn
  · rw [heq] at h
    exact Except.noConfusion h

/-- A successful invocation preserves distinctness of the registry
keys. -/
theorem NewImport_nodup {s s' : PrinterState} {name rawPath r : String}
    (h : NewImport s name rawPath = Except.ok (s', r))
    (hnd : (s.imports.map Prod.fst).Nodup) : (s'.imports.map Prod.fst).Nodup := by
  rcases NewImport_spec s name rawPath with ⟨hn, heq⟩ | ⟨hn, heq⟩ |
    ⟨e, hn, he, hfree, heq⟩ | ⟨e, q, hn, he, hf, hq, heq⟩
  · rw [heq] at h
    simp only [Except.ok.injEq, Prod.mk.injEq] at h
    obtain ⟨hs, _⟩ := h
    subst hs
    exact nodup_keys_insertStr _ _ _ hnd
  · rw [heq] at h
    simp only [Except.ok.injEq, Prod.mk.injEq] at h
    obtain ⟨hs, _⟩ := h
    subst hs
    exact hnd
  · rw [heq] at h
    simp only [Except.ok.injEq, Prod.mk.injEq] at h
    obtain ⟨hs, _⟩ := h
    subst hs
    exact nodup_keys_insertStr _ _ _ hnd
  · rw [heq] at h
    exact Except.noConfusion h

/-- Registry bindings survive any successful sequence of further
deferred-handle invocations. -/
theorem runResolves_preserves {ops : List (String × String)} {s s' : PrinterState}
    (h : runResolves s ops = Except.ok s') :
    ∀ k v, s.imports.lookup k = some v → s'.imports.lookup k = some v := by
  induction ops generalizing s with
  | nil =>
    simp only [runResolves, Except.ok.injEq] at h
    subst h
    exact fun k v hv => hv
  | cons op rest ih =>
    obtain ⟨name, path⟩ := op
    simp only [runResolves] at h
    cases hN : NewImport s name path with
    | error e =>
      rw [hN] at h
      exact Except.noConfusion h
    | ok pr =>
      obtain ⟨s1, r⟩ := pr
      rw [hN] at h
      intro k v hv
      exact ih h k v (NewImport_preserves hN k v hv)

/-- Distinctness of registry keys survives any successful sequence of
deferred-handle invocations. -/
theorem runResolves_nodup {ops : List (String × String)} {s s' : PrinterState}
    (h : runResolves s ops = Except.ok s')
    (hnd : (s.imports.map Prod.fst).Nodup) : (s'.imports.map Prod.fst).Nodup := by
  induction ops generalizing s with
  | nil =>
    simp only [runResolves, Except.ok.injEq] at h
    subst h
    exact hnd
  | cons op rest ih =>
    obtain ⟨name, path⟩ := op
    simp only [runResolves] at h
    cases hN : NewImport s name path with
    | error e =>
      rw [hN] at h
      exact Except.noConfusion h
    | ok pr =>
      obtain ⟨s1, r⟩ := pr
      rw [hN] at h
      exact ih h (NewImport_nodup hN hnd)

/-- Re-invoking a handle with the same preferred name and the same
normalized path, in any state that has kept the bindings established by
the first successful invocation, succeeds and returns the identifier of
the first invocation. -/
theorem resolve_again {s s1 s2 : PrinterState} {name rawPath rawPath2 r : String}
    (h : NewImport s name rawPath = Except.ok (s1, r))
    (hpres : ∀ k v, s1.imports.lookup k = some v → s2.imports.lookup k = some v)
    (hp : unvendor rawPath2 = unvendor rawPath) :
    Except.map Prod.snd (NewImport s2 name rawPath2) = Except.ok r := by
  rcases NewImport_ok_state h with ⟨hr, hl⟩ | ⟨hr, hl, e, he, hl1, hl2⟩
  · have h2 := hpres _ _ hl
    subst hr
    simp [NewImport, hp, h2, Except.map]
  · have h2 := hpres _ _ hl2
    have h3 := hpres _ _ hl
    subst hr
    simp [NewImport, hp, h2, h3, he, Except.map]

/-! ## Claims -/

/-- C1, counterexample: path `"fmt"` is first registered by resolving the
handle `("fmt", "fmt")`, which returns `"fmt"`; a later resolve of a
handle declared for the same path under preferred name `"x"` returns
`"x"`, a different identifier.  So a later resolve under a *different*
preferred name need not return the identifier of the first
registration. -/
theorem C1_counterexample :
    resolve2 "fmt" "fmt" "x" "fmt" = some ("fmt", "x") ∧ ("fmt" : String) ≠ "x" := by
  exact ⟨by decide, by decide⟩

/-- C1 (amended): once a path has been successfully registered by some
handle's resolve(), every later resolve() of a handle declared for that
path under the *same preferred name* as the first registration — and any
raw path with the same normalized path — succeeds and returns the same
identifier as that first registration, regardless of the (successful)
registrations in between. -/
theorem C1_same_name_same_identifier
    (s s1 s2 : PrinterState) (name rawPath rawPath2 r1 : String)
    (ops : List (String × String))
    (h1 : NewImport s name rawPath = Except.ok (s1, r1))
    (h2 : runResolves s1 ops = Except.ok s2)
    (hp : unvendor rawPath2 = unvendor rawPath) :
    Except.map Prod.snd (NewImport s2 name rawPath2) = Except.ok r1 :=
  resolve_again h1 (runResolves_preserves h2) hp

theorem C1_witness :
    Except.map Prod.snd
      (NewImport ⟨"out", "", "", [("fmt", "fmt"), ("os", "os")], false⟩ "fmt" "a/vendor/fmt") =
      Except.ok "fmt" :=
  C1_same_name_same_identifier (newPrinter "out")
    ⟨"out", "", "", [("fmt", "fmt")], false⟩
    ⟨"out", "", "", [("fmt", "fmt"), ("os", "os")], false⟩
    "fmt" "fmt" "a/vendor/fmt" "fmt" [("os", "os")] rfl rfl (by decide)

/-- C2: in any run from a fresh printer, (1) the registry keys stay
distinct, so each registered key is mapped to exactly one canonical
path; (2) a key is never remapped: a binding survives every further
successful resolve; (3) two resolve() calls for distinct canonical
(normalized) paths never return the same identifier. -/
theorem C2_registry_unique_identifiers (pkg : String) (ops : List (String × String))
    (s : PrinterState) (h : runResolves (newPrinter pkg) ops = Except.ok s) :
    (s.imports.map Prod.fst).Nodup ∧
    (∀ ops' s' k v, runResolves s ops' = Except.ok s' →
       s.imports.lookup k = some v → s'.imports.lookup k = some v) ∧
    (∀ name1 p1 t1 r1 ops2 s2 name2 p2 t2 r2,
       NewImport s name1 p1 = Except.ok (t1, r1) →
       runResolves t1 ops2 = Except.ok s2 →
       NewImport s2 name2 p2 = Except.ok (t2, r2) →
       unvendor p1 ≠ unvendor p2 → r1 ≠ r2) := by
  refine ⟨runResolves_nodup h (by simp [newPrinter]),
          fun ops' s' k v h' hv => runResolves_preserves h' k v hv, ?_⟩
  intro name1 p1 t1 r1 ops2 s2 name2 p2 t2 r2 h1 h2 h3 hneq hr
  subst hr
  have ha := NewImport_ok_lookup h1
  have hb := runResolves_preserves h2 _ _ ha
  have hc := NewImport_preserves h3 _ _ hb
  have hd := NewImport_ok_lookup h3
  rw [hc] at hd
  injection hd with hd
  exact hneq hd

theorem C2_witness : ("fmt" : String) ≠ "os" :=
  (C2_registry_unique_identifiers "out" [] (newPrinter "out") rfl).2.2
    "fmt" "fmt" ⟨"out", "", "", [("fmt", "fmt")], false⟩ "fmt" []
    ⟨"out", "", "", [("fmt", "fmt")], false⟩ "fmt" "os"
    ⟨"out", "", "", [("fmt", "fmt"), ("os", "os")], false⟩ "os"
    rfl rfl rfl (by decide)

/-- C3, counterexample: with the empty string as preferred name, two
references with that name and the distinct canonical paths `"a"` and
`"b"` both resolve without a fatal error, but the first identifier is
the empty string — not a pair of *non-empty* identifiers as the claim
states. -/
theorem C3_counterexample :
    resolve2 "" "a" "" "b" = some ("", "b") ∧ ("" : String).length = 0 := by
  exact ⟨by decide, rfl⟩

/-- C3 (amended): for two references declared on a fresh printer under
the same *non-empty* preferred name but with different canonical paths,
when both resolves complete without a fatal error they yield two
distinct identifiers: the first-registered one gets the preferred name
and the colliding one the sanitized full-path key of its normalized
path; both identifiers are non-empty provided the second normalized path
is non-empty. -/
theorem C3_collision_distinct_identifiers (pkg name p1 p2 : String)
    (s1 s2 : PrinterState) (r1 r2 : String)
    (hname : name ≠ "")
    (hp2 : unvendor p2 ≠ "")
    (hne : unvendor p1 ≠ unvendor p2)
    (h1 : NewImport (newPrinter pkg) name p1 = Except.ok (s1, r1))
    (h2 : NewImport s1 name p2 = Except.ok (s2, r2)) :
    r1 = name ∧ r2 = makeFullpath (unvendor p2) ∧ r1 ≠ r2 ∧ r1 ≠ "" ∧ r2 ≠ "" := by
  have e1 : NewImport (newPrinter pkg) name p1 =
      Except.ok (⟨pkg, "", "", [(name, unvendor p1)], false⟩, name) := by
    simp [NewImport, newPrinter, List.lookup, insertStr]
  rw [e1] at h1
  simp only [Except.ok.injEq, Prod.mk.injEq] at h1
  obtain ⟨hs1, hr1⟩ := h1
  subst hr1
  have hlook : s1.imports.lookup name = some (unvendor p1) := by
    rw [← hs1]
    simp [List.lookup]
  rcases NewImport_spec s1 name p2 with ⟨hn, heq⟩ | ⟨hn, heq⟩ |
    ⟨e, hn, he, hfree, heq⟩ | ⟨e, q, hn, he, hf, hq, heq⟩
  · rw [hlook] at hn
    exact Option.noConfusion hn
  · rw [hlook] at hn
    injection hn with hn
    exact absurd hn hne
  · rw [heq] at h2
    simp only [Except.ok.injEq, Prod.mk.injEq] at h2
    obtain ⟨hs2, hr2⟩ := h2
    subst hr2
    have hfne : name ≠ makeFullpath (unvendor p2) := by
      intro hcontra
      rw [← hcontra] at hfree
      rw [hlook] at hfree
      rcases hfree with hfree | hfree
      · exact Option.noConfusion hfree
      · injection hfree with hfree
        exact hne hfree
    refine ⟨rfl, rfl, hfne, hname, ?_⟩
    intro hcontra
    apply hp2
    have hdata : ((unvendor p2).data.map badToUnderscore) = [] := by
      have := congrArg String.data hcontra
      simpa [makeFullpath] using this
    have : (unvendor p2).data = [] := List.map_eq_nil_iff.mp hdata
    exact String.ext this
  · rw [heq] at h2
    exact Except.noConfusion h2

theorem C3_witness :
    ("fmt" : String) = "fmt" ∧
    ("example_com_pkg_fmt" : String) = makeFullpath (unvendor "example.com/pkg/fmt") ∧
    ("fmt" : String) ≠ "example_com_pkg_fmt" ∧ ("fmt" : String) ≠ "" ∧
    ("example_com_pkg_fmt" : String) ≠ "" :=
  C3_collision_distinct_identifiers "out" "fmt" "fmt" "example.com/pkg/fmt"
    ⟨"out", "", "", [("fmt", "fmt")], false⟩
    ⟨"out", "", "", [("fmt", "fmt"), ("example_com_pkg_fmt", "example.com/pkg/fmt")], false⟩
    "fmt" "example_com_pkg_fmt"
    (by decide) (by decide) (by decide) rfl rfl

/-- C4: a deferred-handle invocation panics exactly when the preferred
name is bound to a different path (the collision-fallback branch is
taken) *and* the full-path key is bound to a path different from the
current normalized path; in every other case it returns a name. -/
theorem C4_panic_iff_fullpath_conflict (s : PrinterState) (name rawPath : String) :
    isErr (NewImport s name rawPath) = true ↔
      ((∃ e, s.imports.lookup name = some e ∧ e ≠ unvendor rawPath) ∧
       (∃ q, s.imports.lookup (makeFullpath (unvendor rawPath)) = some q ∧
          q ≠ unvendor rawPath)) := by
  constructor
  · intro h
    rcases NewImport_spec s name rawPath with ⟨hn, heq⟩ | ⟨hn, heq⟩ |
      ⟨e, hn, he, hfree, heq⟩ | ⟨e, q, hn, he, hf, hq, heq⟩
    · rw [heq] at h
      simp [isErr] at h
    · rw [heq] at h
      simp [isErr] at h
    · rw [heq] at h
      simp [isErr] at h
    · exact ⟨⟨e, hn, he⟩, ⟨q, hf, hq⟩⟩
  · rintro ⟨⟨e, hn, he⟩, ⟨q, hf, hq⟩⟩
    rcases NewImport_spec s name rawPath with ⟨hn', heq⟩ | ⟨hn', heq⟩ |
      ⟨e', hn', he', hfree, heq⟩ | ⟨e', q', hn', he', hf', hq', heq⟩
    · rw [hn] at hn'
      exact Option.noConfusion hn'
    · rw [hn] at hn'
      injection hn' with hn'
      exact absurd hn' he
    · rcases hfree with hfree | hfree
      · rw [hf] at hfree
        exact Option.noConfusion hfree
      · rw [hf] at hfree
        injection hfree with hfree
        exact absurd hfree hq
    · rw [heq]
      rfl

theorem C4_witness :
    isErr (NewImport ⟨"out", "", "", [("x", "p"), ("q", "z")], false⟩ "x" "q") = true :=
  (C4_panic_iff_fullpath_conflict ⟨"out", "", "", [("x", "p"), ("q", "z")], false⟩ "x" "q").mpr
    ⟨⟨"p", rfl, by decide⟩, ⟨"z", rfl, by decide⟩⟩

/-- C6: two raw paths whose parts after the last vendoring marker agree
(so they differ only by the stripped vendoring prefix) resolve, under
the same preferred name, to the same identifier: after the first
resolves successfully, resolving the second succeeds and returns the
first's identifier. -/
theorem C6_unvendor_same_identifier (s s1 : PrinterState) (name p1 p2 r1 : String)
    (hp : unvendor p1 = unvendor p2)
    (h1 : NewImport s name p1 = Except.ok (s1, r1)) :
    Except.map Prod.snd (NewImport s1 name p2) = Except.ok r1 :=
  resolve_again h1 (fun _ _ hv => hv) hp.symm

theorem C6_witness :
    Except.map Prod.snd
      (NewImport ⟨"out", "", "", [("fmt", "fmt")], false⟩ "fmt" "fmt") = Except.ok "fmt" :=
  C6_unvendor_same_identifier (newPrinter "out") ⟨"out", "", "", [("fmt", "fmt")], false⟩
    "fmt" "github.com/x/vendor/fmt" "fmt" "fmt" (by decide) rfl

/-- C7: re-invoking a deferred handle after a first successful
resolution — with any successful registrations in between — succeeds and
returns the identical name the first invocation returned.  (The Go
closure overwrites its captured path with the normalized one; since
normalization strips up to the *last* marker, re-normalizing is the
identity, and the handle is faithfully modelled by re-resolving the
declared raw path.) -/
theorem C7_resolve_idempotent (s s1 s2 : PrinterState) (name rawPath r1 : String)
    (ops : List (String × String))
    (h1 : NewImport s name rawPath = Except.ok (s1, r1))
    (h2 : runResolves s1 ops = Except.ok s2) :
    Except.map Prod.snd (NewImport s2 name rawPath) = Except.ok r1 :=
  resolve_again h1 (runResolves_preserves h2) rfl

theorem C7_witness :
    Except.map Prod.snd
      (NewImport ⟨"out", "", "", [("fmt", "a/b"), ("q", "c")], false⟩ "fmt" "a/b") =
      Except.ok "fmt" :=
  C7_resolve_idempotent (newPrinter "out") ⟨"out", "", "", [("fmt", "a/b")], false⟩
    ⟨"out", "", "", [("fmt", "a/b"), ("q", "c")], false⟩ "fmt" "a/b" "fmt" [("q", "c")]
    rfl rfl

/-- C8: `Out` panics exactly when the indentation depth is zero; when
the depth is positive it removes exactly one indent unit (the first
character of the indentation) and does not fail.  The depth is a natural
number, so it never goes negative. -/
theorem C8_Out_panics_iff_zero_indent (p : PrinterState) :
    (isErr (Out p) = true ↔ p.indent.length = 0) ∧
    (∀ q, Out p = Except.ok q →
       q.indent.length + 1 = p.indent.length ∧ q.indent.data = p.indent.data.drop 1) := by
  constructor
  · constructor
    · intro h
      by_contra hne
      have hpos : 0 < p.indent.length := Nat.pos_of_ne_zero hne
      simp [Out, hpos, isErr] at h
    · intro h
      have hneg : ¬0 < p.indent.length := by omega
      simp [Out, hneg, isErr]
  · intro q hq
    by_cases hpos : 0 < p.indent.length
    · simp only [Out, if_pos hpos, Except.ok.injEq] at hq
      subst hq
      refine ⟨?_, rfl⟩
      have hpos' : 0 < p.indent.data.length := hpos
      show (p.indent.data.drop 1).length + 1 = p.indent.data.length
      rw [List.length_drop]
      omega
    · simp [Out, hpos] at hq

theorem C8_witness :
    ((⟨"out", "", "", [], false⟩ : PrinterState).indent.length + 1 =
        (In (newPrinter "out")).indent.length ∧
      (⟨"out", "", "", [], false⟩ : PrinterState).indent.data =
        (In (newPrinter "out")).indent.data.drop 1) :=
  (C8_Out_panics_iff_zero_indent (In (newPrinter "out"))).2 ⟨"out", "", "", [], false⟩ rfl

/-! ## Lemmas about serialization -/

/-- `topString` only looks at the package name and the registry, so it
ignores the content buffer. -/
theorem topString_update_w (p : PrinterState) (x : String) :
    topString { p with w := x } = topString p := by
  cases p
  rfl

/-- On a successful serialization the sink received exactly the header
text followed by the content buffer, and the printer's content buffer
has been drained. -/
theorem WriteTo_received_ok (p : PrinterState) (s : Sink)
    (h : (WriteTo p s).2.2.2 = false) :
    (WriteTo p s).2.1.received = s.received ++ (topString p).data ++ p.w.data ∧
    (WriteTo p s).1 = { p with w := "" } := by
  by_cases h1 : (topString p).length ≤ s.budget
  · by_cases h2 : p.w.length ≤ s.budget - (topString p).length
    · constructor
      · simp [WriteTo, sinkWrite, h1, h2, List.append_assoc]
      · simp only [WriteTo, sinkWrite, if_pos h1, if_pos h2]
        have hd : p.w.data.drop p.w.length = [] := List.drop_length p.w.data
        simp [hd]
    · exfalso
      simp [WriteTo, sinkWrite, h1, h2] at h
  · exfalso
    simp [WriteTo, sinkWrite, h1] at h

/-- C9: serialization returns the number of characters actually accepted
by the sink together with the first write error; when the write of the
header and import block fails, the error is returned with the partial
count, the printer is left untouched, and none of the accumulated
content reaches the sink. -/
theorem C9_WriteTo_bytecount_error (p : PrinterState) (s : Sink) :
    ((WriteTo p s).2.2.1 + s.received.length = (WriteTo p s).2.1.received.length) ∧
    ((topString p).length > s.budget →
      (WriteTo p s).2.2.2 = true ∧ (WriteTo p s).1 = p ∧
      (WriteTo p s).2.1.received = s.received ++ (topString p).data.take s.budget) ∧
    ((WriteTo p s).2.2.2 = false →
      (WriteTo p s).2.1.received = s.received ++ (topString p).data ++ p.w.data) := by
  refine ⟨?_, ?_, ?_⟩
  · by_cases h1 : (topString p).length ≤ s.budget
    · by_cases h2 : p.w.length ≤ s.budget - (topString p).length
      · simp [WriteTo, sinkWrite, h1, h2, List.length_append]
        omega
      · simp [WriteTo, sinkWrite, h1, h2, List.length_append, List.length_take]
        omega
    · simp [WriteTo, sinkWrite, h1, List.length_append, List.length_take]
      omega
  · intro hgt
    have h1 : ¬(topString p).length ≤ s.budget := by omega
    refine ⟨?_, ?_, ?_⟩ <;> simp [WriteTo, sinkWrite, h1]
  · intro herr
    exact (WriteTo_received_ok p s herr).1

theorem C9_witness :
    (WriteTo (newPrinter "out") ⟨[], 0⟩).2.2.2 = true ∧
    (WriteTo (newPrinter "out") ⟨[], 0⟩).1 = newPrinter "out" ∧
    (WriteTo (newPrinter "out") ⟨[], 0⟩).2.1.received =
      [] ++ (topString (newPrinter "out")).data.take 0 :=
  (C9_WriteTo_bytecount_error (newPrinter "out") ⟨[], 0⟩).2.1 (by decide)

/-- C10: a successful serialization consumes the content buffer: the
resulting printer has an empty buffer but keeps its package name and
registry, so a second successful serialization to another sink emits the
header, package clause and import block again and none of the previously
accumulated content. -/
theorem C10_WriteTo_drains_content (p : PrinterState) (s : Sink)
    (h : (WriteTo p s).2.2.2 = false) :
    (WriteTo p s).1.w = "" ∧ (WriteTo p s).1.imports = p.imports ∧
    (WriteTo p s).1.pkgName = p.pkgName ∧
    (∀ s2, (WriteTo ((WriteTo p s).1) s2).2.2.2 = false →
      (WriteTo ((WriteTo p s).1) s2).2.1.received = s2.received ++ (topString p).data) := by
  obtain ⟨hrecv, hp'⟩ := WriteTo_received_ok p s h
  refine ⟨?_, ?_, ?_, ?_⟩
  · rw [hp']
  · rw [hp']
  · rw [hp']
  · intro s2 h2
    obtain ⟨hrecv2, _⟩ := WriteTo_received_ok ((WriteTo p s).1) s2 h2
    rw [hrecv2, hp', topString_update_w]
    cases p
    simp

theorem C10_witness :
    (WriteTo (P (newPrinter "out") "hello") ⟨[], 1000⟩).1.w = "" ∧
    (WriteTo (P (newPrinter "out") "hello") ⟨[], 1000⟩).1.imports =
      (P (newPrinter "out") "hello").imports ∧
    (WriteTo (P (newPrinter "out") "hello") ⟨[], 1000⟩).1.pkgName =
      (P (newPrinter "out") "hello").pkgName ∧
    (WriteTo ((WriteTo (P (newPrinter "out") "hello") ⟨[], 1000⟩).1) ⟨[], 1000⟩).2.1.received =
      [] ++ (topString (P (newPrinter "out") "hello")).data :=
  ⟨(C10_WriteTo_drains_content (P (newPrinter "out") "hello") ⟨[], 1000⟩ (by decide)).1,
   (C10_WriteTo_drains_content (P (newPrinter "out") "hello") ⟨[], 1000⟩ (by decide)).2.1,
   (C10_WriteTo_drains_content (P (newPrinter "out") "hello") ⟨[], 1000⟩ (by decide)).2.2.1,
   (C10_WriteTo_drains_content (P (newPrinter "out") "hello") ⟨[], 1000⟩ (by decide)).2.2.2
     ⟨[], 1000⟩ (by decide)⟩

/-! ## The string order of `sort.Strings` -/

theorem leChars_total : ∀ (a b : List Char), leChars a b = true ∨ leChars b a = true
  | [], _ => Or.inl rfl
  | _ :: _, [] => Or.inr rfl
  | a :: as, b :: bs => by
    rcases lt_trichotomy a b with h | h | h
    · left
      simp [leChars, h]
    · subst h
      rcases leChars_total as bs with ih | ih
      · left
        simp [leChars, lt_irrefl, ih]
      · right
        simp [leChars, lt_irrefl, ih]
    · right
      simp [leChars, h]

theorem leChars_trans :
    ∀ (a b c : List Char), leChars a b = true → leChars b c = true → leChars a c = true
  | [], _, _, _, _ => rfl
  | _ :: _, [], _, hab, _ => by simp [leChars] at hab
  | _ :: _, _ :: _, [], _, hbc => by simp [leChars] at hbc
  | a :: as, b :: bs, c :: cs, hab, hbc => by
    simp only [leChars] at hab hbc ⊢
    rcases lt_trichotomy a b with h1 | h1 | h1
    · rcases lt_trichotomy b c with h2 | h2 | h2
      · simp [lt_trans h1 h2]
      · subst h2
        simp [h1]
      · rw [if_neg (lt_asymm h2), if_pos h2] at hbc
        exact Bool.noConfusion hbc
    · subst h1
      rw [if_neg (lt_irrefl a), if_neg (lt_irrefl a)] at hab
      rcases lt_trichotomy a c with h2 | h2 | h2
      · simp [h2]
      · subst h2
        rw [if_neg (lt_irrefl a), if_neg (lt_irrefl a)] at hbc ⊢
        exact leChars_trans as bs cs hab hbc
      · rw [if_neg (lt_asymm h2), if_pos h2] at hbc
        exact Bool.noConfusion hbc
    · rw [if_neg (lt_asymm h1), if_pos h1] at hab
      exact Bool.noConfusion hab

theorem leChars_antisymm :
    ∀ (a b : List Char), leChars a b = true → leChars b a = true → a = b
  | [], [], _, _ => rfl
  | [], _ :: _, _, hba => by simp [leChars] at hba
  | _ :: _, [], hab, _ => by simp [leChars] at hab
  | a :: as, b :: bs, hab, hba => by
    simp only [leChars] at hab hba
    rcases lt_trichotomy a b with h | h | h
    · rw [if_neg (lt_asymm h), if_pos h] at hba
      exact Bool.noConfusion hba
    · subst h
      rw [if_neg (lt_irrefl a), if_neg (lt_irrefl a)] at hab hba
      rw [leChars_antisymm as bs hab hba]
    · rw [if_neg (lt_asymm h), if_pos h] at hab
      exact Bool.noConfusion hab

instance : IsTotal String strLeP :=
  ⟨fun a b => leChars_total a.data b.data⟩

instance : IsTrans String strLeP :=
  ⟨fun a b c hab hbc => leChars_trans a.data b.data c.data hab hbc⟩

instance : IsAntisymm String strLeP :=
  ⟨fun a b hab hba => String.ext (leChars_antisymm a.data b.data hab hba)⟩

theorem sortStrings_sorted (l : List String) : List.Sorted strLeP (sortStrings l) :=
  List.sorted_insertionSort strLeP l

theorem sortStrings_perm (l : List String) : (sortStrings l).Perm l :=
  List.perm_insertionSort strLeP l

/-- Sorting depends only on the multiset of strings, not their order:
the sorted permutation of a list is unique. -/
theorem sortStrings_eq_of_perm (l l' : List String) (h : l.Perm l') :
    sortStrings l = sortStrings l' :=
  List.eq_of_perm_of_sorted
    ((sortStrings_perm l).trans (h.trans (sortStrings_perm l').symm))
    (sortStrings_sorted l) (sortStrings_sorted l')

/-! ## Lemmas about the inverse map built by `WriteTo` -/

/-- When every inserted key is fresh, Go map assignment just appends, so
the `pathToQual` fold is the list of swapped pairs. -/
theorem foldl_insert_fresh :
    ∀ (l : List (String × String)) (m : List (String × String)),
      (∀ kp ∈ l, m.lookup kp.2 = none) → (l.map Prod.snd).Nodup →
      l.foldl (fun m kp => insertStr m kp.2 kp.1) m = m ++ l.map (fun kp => (kp.2, kp.1))
  | [], m, _, _ => by simp
  | kp :: rest, m, hfresh, hnd => by
    obtain ⟨k, p⟩ := kp
    simp only [List.foldl_cons]
    have h1 : insertStr m p k = m ++ [(p, k)] :=
      insertStr_of_lookup_none m p k (hfresh (k, p) (List.mem_cons_self _ _))
    rw [h1]
    simp only [List.map, List.nodup_cons] at hnd
    rw [foldl_insert_fresh rest (m ++ [(p, k)]) ?fresh hnd.2]
    · simp
    case fresh =>
      intro kp' hmem
      rw [List.lookup_append]
      have hm : m.lookup kp'.2 = none := hfresh kp' (List.mem_cons_of_mem _ hmem)
      rw [hm, Option.none_or]
      have hne : kp'.2 ≠ p := by
        intro hcontra
        apply hnd.1
        rw [← hcontra]
        exact List.mem_map_of_mem Prod.snd hmem
      have hb : (kp'.2 == p) = false := by simp [hne]
      simp [List.lookup, hb]

/-- Looking a path up in the swapped list finds the key of its first
registration. -/
theorem lookup_map_swap (l : List (String × String)) (p : String) :
    (l.map (fun kp => (kp.2, kp.1))).lookup p =
      (l.find? (fun kp => kp.2 == p)).map Prod.fst := by
  induction l with
  | nil => simp [List.lookup]
  | cons kp rest ih =>
    obtain ⟨k0, p0⟩ := kp
    by_cases h : p = p0
    · subst h
      simp [List.lookup, List.find?]
    · have h1 : (p == p0) = false := by simp [h]
      have h2 : (p0 == p) = false := by
        have : ¬p0 = p := fun hh => h hh.symm
        simp [this]
      simp [List.lookup, List.find?, h1, h2, ih]

/-- `find?` returns the unique element satisfying the predicate. -/
theorem find?_eq_some_of_unique {α : Type} {pred : α → Bool} {x : α} :
    ∀ (l : List α), x ∈ l → pred x = true → (∀ y ∈ l, pred y = true → y = x) →
      l.find? pred = some x
  | [], hx, _, _ => absurd hx (List.not_mem_nil x)
  | a :: rest, hx, hpx, huniq => by
    by_cases ha : pred a = true
    · rw [List.find?_cons_of_pos _ ha, huniq a (List.mem_cons_self a rest) ha]
    · rw [List.find?_cons_of_neg _ ha]
      have hx' : x ∈ rest := by
        rcases List.mem_cons.mp hx with h | h
        · subst h
          exact absurd hpx ha
        · exact h
      exact find?_eq_some_of_unique rest hx' hpx
        (fun y hy hpy => huniq y (List.mem_cons_of_mem a hy) hpy)

/-- C5, counterexample: the registry `[("fmt", "fmt"), ("x", "fmt")]` is
reachable (resolve `("fmt", "fmt")`, then `("x", "fmt")`), and the key
`"fmt"` is registered for path `"fmt"` — equal to the path — yet the
emitted block lists the path twice and only in qualified `x "fmt"` form,
never unqualified.  The claim's "one per line, unqualified when its
registered key equals the path" therefore fails on registries that bind
two keys to one path. -/
theorem C5_counterexample :
    runResolves (newPrinter "out") [("fmt", "fmt"), ("x", "fmt")] =
      Except.ok ⟨"out", "", "", [("fmt", "fmt"), ("x", "fmt")], false⟩ ∧
    List.lookup "fmt" [("fmt", "fmt"), ("x", "fmt")] = some "fmt" ∧
    importBlock [("fmt", "fmt"), ("x", "fmt")] =
      "\nimport (\n\tx \"fmt\"\n\tx \"fmt\"\n)\n" := by
  exact ⟨rfl, by decide, by decide⟩

/-- C5 (amended): for every registry in which each canonical path is
registered under exactly one key and with at least one registered
reference, serialization emits a non-empty import block equal to the
specification's block: paths in ascending lexicographic order of
canonical path, one per line, a path unqualified exactly when its
registered key equals the path and in `key "path"` form otherwise —
independent of the order in which the references were registered (any
permutation `l'` of the registry `l` emits the same block). -/
theorem C5_sorted_import_block (l l' : List (String × String))
    (hnd : (l.map Prod.snd).Nodup) (hperm : l.Perm l') (hne : l ≠ []) :
    importBlock l' = specImportBlock l ∧ importBlock l' ≠ "" := by
  have hnd' : (l'.map Prod.snd).Nodup := (hperm.map Prod.snd).nodup hnd
  have hlen : 0 < l'.length := by
    rw [← hperm.length_eq]
    exact List.length_pos.mpr hne
  have hq : pathToQualOf l' = l'.map (fun kp => (kp.2, kp.1)) :=
    foldl_insert_fresh l' [] (fun kp _ => rfl) hnd'
  have hsort : sortStrings (pathsOf l') = sortStrings (l.map Prod.snd) :=
    sortStrings_eq_of_perm _ _ ((hperm.map Prod.snd).symm)
  have hline : ∀ q ∈ sortStrings (l.map Prod.snd),
      importLine (pathToQualOf l') q =
        (fun path =>
          let k := ((l.find? (fun kp => kp.2 == path)).map Prod.fst).getD ""
          if k = path then "\t\"" ++ path ++ "\"\n"
          else "\t" ++ k ++ " \"" ++ path ++ "\"\n") q := by
    intro q hqmem
    have hqmem' : q ∈ l.map Prod.snd := ((sortStrings_perm _).mem_iff).mp hqmem
    obtain ⟨kp, hkpmem, hkpq⟩ := List.mem_map.mp hqmem'
    have huniq : ∀ y ∈ l, (fun kp => kp.2 == q) y = true → y = kp := by
      intro y hy hpy
      have hyq : y.2 = kp.2 := by
        have h1 : y.2 = q := by simpa using hpy
        rw [h1, hkpq]
      exact List.inj_on_of_nodup_map hnd hy hkpmem hyq
    have hfindl : l.find? (fun kp => kp.2 == q) = some kp :=
      find?_eq_some_of_unique l hkpmem (by simp [hkpq]) huniq
    have hfindl' : l'.find? (fun kp => kp.2 == q) = some kp :=
      find?_eq_some_of_unique l' (hperm.mem_iff.mp hkpmem) (by simp [hkpq])
        (fun y hy hpy => huniq y (hperm.mem_iff.mpr hy) hpy)
    simp only [importLine, hq, lookup_map_swap, hfindl', hfindl, Option.map_some',
      Option.getD_some]
  constructor
  · simp only [importBlock, if_pos hlen, specImportBlock]
    rw [hsort, List.map_congr_left hline]
  · simp only [importBlock, if_pos hlen]
    intro hcontra
    have hdata := congrArg String.data hcontra
    simp [String.data_append] at hdata

theorem C5_witness :
    (importBlock [("f", "fmt"), ("os", "os")] = specImportBlock [("os", "os"), ("f", "fmt")] ∧
      importBlock [("f", "fmt"), ("os", "os")] ≠ "") :=
  C5_sorted_import_block [("os", "os"), ("f", "fmt")] [("f", "fmt"), ("os", "os")]
    (by decide) (by decide) (by decide)

end GoDerive
